import Mathlib

/-!
# Verification of the waveform visualizer pipeline

A shallow embedding of the numerical core of `generate_waveform.py`
(waveformvisualizer): the downsampler, the PCM decoder's dtype selection,
channel downmix and normalization steps, the content fingerprint, the
cache-tolerant orchestration of `main`, its cleanup step, and the color
gradient used by the renderer.  Sample values are modelled as rationals,
machine integers as `Nat`/`Int`, fallible steps as `Option`/`Except`.
-/

set_option autoImplicit false

namespace WaveformVis

/-! ## Definitions -/

/-- Arithmetic mean of a list of rationals, as `numpy.mean`: sum divided by
length (`0/0 = 0` for the empty list, which never occurs in the uses below). -/
def mean (xs : List ℚ) : ℚ := xs.sum / (xs.length : ℚ)

/-- The rows of `xs.reshape(-1, f)`: the first `xs.length / f` contiguous
blocks of `f` consecutive elements. -/
def reshapeRows (f : Nat) (xs : List ℚ) : List (List ℚ) :=
  (List.range (xs.length / f)).map (fun k => (xs.drop (k * f)).take f)

/-- `xs.reshape(-1, f).mean(axis=1)`: the per-row means. -/
def blockMeans (f : Nat) (xs : List ℚ) : List ℚ :=
  (reshapeRows f xs).map mean

/-- `np.linspace(0, d, num := n)`: `n` evenly spaced points from `0` to `d`
inclusive; a single point is `0`, zero points is the empty list. -/
def linspace (d : ℚ) (n : Nat) : List ℚ :=
  if n = 1 then [0]
  else (List.range n).map (fun (i : Nat) => (i : ℚ) * d / ((n : ℚ) - 1))

/-- Shallow embedding of `downsample_audio` (generate_waveform.py:135-142).
Returns the (possibly reduced) amplitude list and the time axis.  In the
reduction branch the source computes `factor = len // max_points`, truncates
to `factor * max_points` samples, block-averages, and rescales the duration
by `len(reduced) / frames` before building the time axis. -/
def downsample_audio (audio : List ℚ) (duration : ℚ) (frames : Nat)
    (maxPoints : Nat) : List ℚ × List ℚ :=
  if maxPoints < audio.length then
    let factor := audio.length / maxPoints
    let reduced := blockMeans factor (audio.take (factor * maxPoints))
    let adjusted := duration * ((reduced.length : ℚ) / (frames : ℚ))
    (reduced, linspace adjusted reduced.length)
  else
    (audio, linspace duration audio.length)

/-- `np.max(np.abs(xs))`: the largest absolute sample value (`0` for the
empty list, which `np.max` would reject; the theorems below assume a
nonempty signal). -/
def maxAbs (xs : List ℚ) : ℚ := (xs.map abs).foldr max 0

/-- The normalization step of `process_audio_data`
(generate_waveform.py:127-132): divide every sample by the maximum absolute
value when it is positive, otherwise leave the signal untouched. -/
def normalize_audio (xs : List ℚ) : List ℚ :=
  if 0 < maxAbs xs then xs.map (fun x => x / maxAbs xs) else xs

/-- The channel-averaging step of `process_audio_data`
(generate_waveform.py:114-125): view the interleaved samples as frames of
`channels` values (`reshape(-1, channels)`) and replace each frame by its
mean; single-channel input passes through. -/
def downmix (channels : Nat) (xs : List ℚ) : List ℚ :=
  if 1 < channels then (reshapeRows channels xs).map mean else xs

/-- The sample-processing tail of `process_audio_data`: channel downmix
followed by amplitude normalization. -/
def process_samples (channels : Nat) (xs : List ℚ) : List ℚ :=
  normalize_audio (downmix channels xs)

/-- The numpy dtypes `process_audio_data` can select. -/
inductive NpDtype
  | int16
  | int32
  | uint8

/-- The sample-width dispatch of `process_audio_data`
(generate_waveform.py:101-110): width 2 maps to `int16`, 4 to `int32`, 1 to
`uint8`; any other width prints a message and terminates the run
(`sys.exit(1)`), modelled as `Except.error`, so no partial output exists. -/
def dtype_for_width (sampwidth : Nat) : Except String NpDtype :=
  if sampwidth = 2 then Except.ok NpDtype.int16
  else if sampwidth = 4 then Except.ok NpDtype.int32
  else if sampwidth = 1 then Except.ok NpDtype.uint8
  else Except.error "Unsupported sample width"

/-- Truncation to a 32-bit word. -/
def w32 (x : Nat) : Nat := x % 2 ^ 32

/-- 32-bit right rotation by `n` bits (`n ≤ 32`), in arithmetic form. -/
def rotr32 (n x : Nat) : Nat := w32 (x / 2 ^ n + x % 2 ^ n * 2 ^ (32 - n))

/-- SHA-256 round constants (FIPS 180-4 section 4.2.2), in decimal. -/
def sha256K : List Nat :=
  [1116352408, 1899447441, 3049323471, 3921009573,
   961987163, 1508970993, 2453635748, 2870763221,
   3624381080, 310598401, 607225278, 1426881987,
   1925078388, 2162078206, 2614888103, 3248222580,
   3835390401, 4022224774, 264347078, 604807628,
   770255983, 1249150122, 1555081692, 1996064986,
   2554220882, 2821834349, 2952996808, 3210313671,
   3336571891, 3584528711, 113926993, 338241895,
   666307205, 773529912, 1294757372, 1396182291,
   1695183700, 1986661051, 2177026350, 2456956037,
   2730485921, 2820302411, 3259730800, 3345764771,
   3516065817, 3600352804, 4094571909, 275423344,
   430227734, 506948616, 659060556, 883997877,
   958139571, 1322822218, 1537002063, 1747873779,
   1955562222, 2024104815, 2227730452, 2361852424,
   2428436474, 2756734187, 3204031479, 3329325298]

/-- SHA-256 initial hash state (FIPS 180-4 section 5.3.3), in decimal. -/
def sha256Init : List Nat :=
  [1779033703, 3144134277, 1013904242, 2773480762,
   1359893119, 2600822924, 528734635, 1541459225]

/-- Big-endian byte decomposition of `x`, `k` bytes wide. -/
def toBytesBE : Nat → Nat → List Nat
  | 0, _ => []
  | k + 1, x => toBytesBE k (x / 256) ++ [x % 256]

/-- Fold consecutive groups of four bytes into big-endian 32-bit words. -/
def bytesToWordsBE : List Nat → List Nat
  | b0 :: b1 :: b2 :: b3 :: rest =>
      (((b0 * 256 + b1) * 256 + b2) * 256 + b3) :: bytesToWordsBE rest
  | _ => []

/-- The first `xs.length / c` contiguous chunks of `c` bytes. -/
def chunksOf (c : Nat) (xs : List Nat) : List (List Nat) :=
  (List.range (xs.length / c)).map (fun k => (xs.drop (k * c)).take c)

/-- SHA-256 message-schedule sigma functions. -/
def ssig0 (x : Nat) : Nat := (rotr32 7 x) ^^^ (rotr32 18 x) ^^^ (x / 2 ^ 3)

def ssig1 (x : Nat) : Nat := (rotr32 17 x) ^^^ (rotr32 19 x) ^^^ (x / 2 ^ 10)

/-- SHA-256 compression sigma functions. -/
def bsig0 (x : Nat) : Nat := (rotr32 2 x) ^^^ (rotr32 13 x) ^^^ (rotr32 22 x)

def bsig1 (x : Nat) : Nat := (rotr32 6 x) ^^^ (rotr32 11 x) ^^^ (rotr32 25 x)

/-- Extend the 16 block words by the 48 scheduled words. -/
def sha256Schedule (ws : List Nat) : List Nat :=
  (List.range 48).foldl
    (fun acc _ =>
      let n := acc.length
      acc ++ [w32 (ssig1 (acc.getD (n - 2) 0) + acc.getD (n - 7) 0
        + ssig0 (acc.getD (n - 15) 0) + acc.getD (n - 16) 0)])
    ws

/-- One SHA-256 compression over a 64-byte block. -/
def sha256Compress (h : List Nat) (block : List Nat) : List Nat :=
  let ws := sha256Schedule (bytesToWordsBE block)
  let st := (List.range 64).foldl
    (fun st t =>
      match st with
      | [a, b, c, d, e, f, g, hh] =>
          let ch := (e &&& f) ^^^ (((2 ^ 32 - 1) ^^^ e) &&& g)
          let mj := (a &&& b) ^^^ (a &&& c) ^^^ (b &&& c)
          let t1 := w32 (hh + bsig1 e + ch + sha256K.getD t 0 + ws.getD t 0)
          let t2 := w32 (bsig0 a + mj)
          [w32 (t1 + t2), a, b, c, w32 (d + t1), e, f, g]
      | other => other)
    h
  List.zipWith (fun x y => w32 (x + y)) h st

/-- SHA-256 padding: append `0x80`, zeros up to 56 bytes mod 64, then the
8-byte big-endian bit length. -/
def sha256Pad (msg : List Nat) : List Nat :=
  msg ++ 0x80 :: List.replicate ((119 - msg.length % 64) % 64) 0
    ++ toBytesBE 8 (msg.length * 8)

/-- SHA-256 of a byte list, as the 32-byte digest. -/
def sha256 (msg : List Nat) : List Nat :=
  (((chunksOf 64 (sha256Pad msg)).foldl sha256Compress sha256Init).map
    (toBytesBE 4)).flatten

/-- The byte stream `file_hash` feeds to SHA-256
(generate_waveform.py:25-41): the file's content bytes (read in chunks that
concatenate back to the whole content) followed by the UTF-8 bytes of
`str(mtime)` (ASCII, so `Char.toNat` per character). -/
def file_hash_input (content : List Nat) (mtimeStr : String) : List Nat :=
  content ++ mtimeStr.toList.map Char.toNat

/-- `file_hash(filepath)`: the SHA-256 digest of the content bytes followed
by the modification-time string. -/
def file_hash (content : List Nat) (mtimeStr : String) : List Nat :=
  sha256 (file_hash_input content mtimeStr)

/-- The waveform data `main` caches and renders: normalized samples, the
duration in seconds, and the original frame count. -/
structure WaveformRecord where
  audio_array : List ℚ
  duration : ℚ
  frames : Nat

/-- Outcome of the cache lookup in `main` (generate_waveform.py:289-300):
no usable cache file, an entry whose deserialization raises, or a loaded
record. -/
inductive CacheRead
  | absent
  | corrupt
  | loaded (r : WaveformRecord)

/-- Result of the `main` pipeline body: the series handed to the renderer,
whether the waveform was recomputed (decode ran), and whether a cache entry
was written this run. -/
structure MainResult where
  rendered : List ℚ × List ℚ
  recomputed : Bool
  cacheWritten : Bool

/-- The cache-handling body of `main` (generate_waveform.py:287-330): a
loaded entry skips decoding; an absent or corrupt entry leaves `cache_hit`
false, so the record is recomputed and a best-effort cache write happens,
succeeding only when `putOk`; the rendered series is the downsampled
record with `max_points = 3000` generalized to `maxPoints`. -/
def main_run (decoded : WaveformRecord) (c : CacheRead) (putOk : Bool)
    (maxPoints : Nat) : MainResult :=
  match c with
  | CacheRead.loaded r =>
      { rendered := downsample_audio r.audio_array r.duration r.frames maxPoints
        recomputed := false
        cacheWritten := false }
  | _ =>
      { rendered := downsample_audio decoded.audio_array decoded.duration
          decoded.frames maxPoints
        recomputed := true
        cacheWritten := putOk }

/-- `input_path.lower().endswith(".wav")`: ASCII lowercasing then a suffix
test, modelled over the character list so that it evaluates. -/
def endsWithWav (p : String) : Bool :=
  List.isSuffixOf (String.toList ".wav") (p.toList.map Char.toLower)

/-- The fixed transcode target `"temp_waveform.wav"`
(generate_waveform.py:281). -/
def temp_wav : String := "temp_waveform.wav"

/-- The final value of `wav_path` in `main` (generate_waveform.py:281-308):
reassigned to the input path only on a cache miss with a `.wav` input. -/
def wav_path_for (inputPath : String) (cacheHit : Bool) : String :=
  if !cacheHit && endsWithWav inputPath then inputPath else temp_wav

/-- Whether the run invokes the transcoder, creating `temp_wav`
(generate_waveform.py:302-308). -/
def transcodes (inputPath : String) (cacheHit : Bool) : Bool :=
  !cacheHit && !endsWithWav inputPath

/-- Paths existing after the pipeline body: the transcoder brings `temp_wav`
into existence on the runs that invoke it. -/
def body_files (inputPath : String) (cacheHit : Bool) (fs : List String) :
    List String :=
  if transcodes inputPath cacheHit then
    if temp_wav ∈ fs then fs else fs ++ [temp_wav]
  else fs

/-- The `finally` block of `main` (generate_waveform.py:333-339): remove
`wav_path` when it differs from the input path and exists. -/
def cleanup (inputPath wavPath : String) (fs : List String) : List String :=
  if wavPath ≠ inputPath ∧ wavPath ∈ fs then fs.erase wavPath else fs

/-- `main`'s `try/finally` around the body: the body's outcome is passed
through unchanged and the cleanup applies on success and failure alike. -/
def run_with_cleanup (inputPath : String) (cacheHit : Bool)
    (body : Except String Unit) (fs : List String) :
    Except String Unit × List String :=
  (body, cleanup inputPath (wav_path_for inputPath cacheHit)
    (body_files inputPath cacheHit fs))

/-- Python `range(n)` for a possibly negative argument. -/
def pyRange (n : Int) : List Int :=
  if n ≤ 0 then [] else (List.range n.toNat).map (fun (k : Nat) => (k : Int))

/-- The gradient positions `i / (n - 1)` computed by
`smooth_gradient_colors` (generate_waveform.py:72-75) before the colormap
lookup; `none` models the `ZeroDivisionError` Python raises as soon as some
`i` is divided by `n - 1 = 0`. -/
def smooth_gradient_positions (n : Int) : Option (List ℚ) :=
  (pyRange n).mapM
    (fun (i : Int) =>
      if n - 1 = 0 then none else some ((i : ℚ) / ((n : ℚ) - 1)))

/-- `plot_waveform` computes `N = len(audio_array) - 1` in Python integer
arithmetic and requests `N` gradient colors (generate_waveform.py:158-159). -/
def plot_gradient_positions (audioLen : Nat) : Option (List ℚ) :=
  smooth_gradient_positions ((audioLen : Int) - 1)

/-- The spec's notion of a uniform grid of points spanning `[0, span]`:
consecutive points differ by `span / (n - 1)`, the first point is `0`, and
for at least two points the last point is `span`. -/
def IsUniformGrid (ts : List ℚ) (span : ℚ) : Prop :=
  (∀ i (hi : i + 1 < ts.length) (hi2 : i < ts.length),
      ts.get ⟨i + 1, hi⟩ - ts.get ⟨i, hi2⟩ = span / ((ts.length : ℚ) - 1)) ∧
    (∀ h0 : 0 < ts.length, ts.get ⟨0, h0⟩ = 0) ∧
    ∀ h2 : 2 ≤ ts.length, ts.get ⟨ts.length - 1, by omega⟩ = span

/-! ## Downsampler lemmas -/

theorem length_blockMeans (f : Nat) (xs : List ℚ) :
    (blockMeans f xs).length = xs.length / f := by
  simp [blockMeans, reshapeRows]

theorem length_take_factor (audio : List ℚ) (M : Nat) :
    (audio.take (audio.length / M * M)).length = audio.length / M * M := by
  rw [List.length_take]
  exact Nat.min_eq_left (Nat.div_mul_le_self _ _)

theorem reduced_length (audio : List ℚ) (M : Nat) (hM : 1 ≤ M)
    (hL : M < audio.length) :
    (blockMeans (audio.length / M) (audio.take (audio.length / M * M))).length
      = M := by
  have hf : 1 ≤ audio.length / M := Nat.one_le_div_iff (by omega) |>.mpr (by omega)
  rw [length_blockMeans, length_take_factor audio M,
    Nat.mul_div_cancel_left M (by omega)]

/-- **C1 (amended)** — Downsample length invariant as the code implements it:
for `maxPoints = M ≥ 1`, an input of length `L ≤ M` passes through with
output length `L`; an input of length `L > M` is reduced to exactly `M`
points (the code truncates to `(L / M) * M` samples and averages blocks of
`L / M`); in every case the output length is at most `M`. -/
theorem downsample_length (audio : List ℚ) (d : ℚ) (frames M : Nat)
    (hM : 1 ≤ M) :
    ((audio.length ≤ M →
        (downsample_audio audio d frames M).1.length = audio.length) ∧
      (M < audio.length →
        (downsample_audio audio d frames M).1.length = M)) ∧
      (downsample_audio audio d frames M).1.length ≤ M := by
  by_cases h : M < audio.length
  · have hred := reduced_length audio M hM h
    constructor
    · constructor
      · intro hle; omega
      · intro _
        simp only [downsample_audio, if_pos h]
        exact hred
    · simp only [downsample_audio, if_pos h]
      exact hred.le
  · have h' : audio.length ≤ M := by omega
    refine ⟨⟨fun _ => ?_, fun hlt => absurd hlt h⟩, ?_⟩
    · simp only [downsample_audio, if_neg h]
    · simp only [downsample_audio, if_neg h]
      omega

/-- Witness for `downsample_length` at a concrete input: eleven samples,
`maxPoints = 3` reduce to three points. -/
theorem downsample_length_witness :
    (downsample_audio (List.replicate 11 (1 : ℚ)) 1 11 3).1.length = 3 :=
  (downsample_length (List.replicate 11 (1 : ℚ)) 1 11 3 (by decide)).1.2
    (by decide)

/-- **C1 counterexample** — The claimed output length `L // (L // M)` is
wrong for the reduction branch: with `L = 8` samples and `maxPoints = 3` the
code returns `3` points, while `8 // (8 // 3) = 4`. -/
theorem downsample_length_claim_false :
    (downsample_audio
        [(0 : ℚ), 2, 4, 6, 8, 10, 12, 14] 1 8 3).1.length = 3 ∧
      (8 : Nat) / (8 / 3) = 4 ∧
      (downsample_audio
        [(0 : ℚ), 2, 4, 6, 8, 10, 12, 14] 1 8 3).1.length ≠ 8 / (8 / 3) := by
  refine ⟨?_, by decide, ?_⟩ <;> decide

/-- In the reduction branch the output is exactly the means of the `M`
blocks of `f = L / M` consecutive samples starting at `0, f, 2f, …`. -/
theorem downsample_fst_eq (audio : List ℚ) (d : ℚ) (frames M : Nat)
    (hM : 1 ≤ M) (hL : M < audio.length) :
    (downsample_audio audio d frames M).1
      = (List.range M).map
          (fun k => mean ((audio.drop (k * (audio.length / M))).take
            (audio.length / M))) := by
  have hf : 1 ≤ audio.length / M :=
    Nat.one_le_div_iff (by omega) |>.mpr (by omega)
  simp only [downsample_audio, if_pos hL]
  unfold blockMeans reshapeRows
  rw [length_take_factor audio M, List.map_map,
    Nat.mul_div_cancel_left M (by omega)]
  apply List.map_congr_left
  intro k hk
  rw [List.mem_range] at hk
  simp only [Function.comp_apply]
  congr 1
  rw [List.drop_take, List.take_take]
  congr 1
  have h1 : (k + 1) * (audio.length / M) ≤ M * (audio.length / M) :=
    Nat.mul_le_mul_right _ (by omega)
  rw [Nat.succ_mul] at h1
  rw [Nat.mul_comm (audio.length / M) M]
  exact Nat.min_eq_left (by omega)

/-- **C2** — In the reduction branch (`L > M ≥ 1`) the output has exactly `M`
elements, element `k` is the arithmetic mean of the block of `f = L / M`
input samples starting at index `k * f`, and the trailing `L - f * M` input
samples never contribute: any input of the same length agreeing on the first
`f * M` samples yields the same amplitudes. -/
theorem downsample_block_mean_spec (audio : List ℚ) (d : ℚ) (frames M : Nat)
    (hM : 1 ≤ M) (hL : M < audio.length) :
    (downsample_audio audio d frames M).1.length = M ∧
      (∀ k (hk : k < (downsample_audio audio d frames M).1.length),
        (downsample_audio audio d frames M).1.get ⟨k, hk⟩
          = mean ((audio.drop (k * (audio.length / M))).take
              (audio.length / M))) ∧
      ∀ audio2 : List ℚ, audio2.length = audio.length →
        audio2.take (audio.length / M * M) = audio.take (audio.length / M * M) →
        (downsample_audio audio2 d frames M).1
          = (downsample_audio audio d frames M).1 := by
  refine ⟨?_, ?_, ?_⟩
  · simp only [downsample_audio, if_pos hL]
    exact reduced_length audio M hM hL
  · intro k hk
    simp only [downsample_fst_eq audio d frames M hM hL, List.get_eq_getElem,
      List.getElem_map, List.getElem_range]
  · intro audio2 hlen hpre
    have hL2 : M < audio2.length := by omega
    rw [downsample_fst_eq audio d frames M hM hL,
      downsample_fst_eq audio2 d frames M hM hL2]
    apply List.map_congr_left
    intro k hk
    rw [List.mem_range] at hk
    rw [hlen]
    congr 1
    rw [List.take_drop, List.take_drop]
    congr 1
    have h1 : (k + 1) * (audio.length / M) ≤ M * (audio.length / M) :=
      Nat.mul_le_mul_right _ (by omega)
    rw [Nat.succ_mul] at h1
    have hle : k * (audio.length / M) + audio.length / M
        ≤ audio.length / M * M := by
      rw [Nat.mul_comm (audio.length / M) M]; omega
    calc audio2.take (k * (audio.length / M) + audio.length / M)
        = (audio2.take (audio.length / M * M)).take
            (k * (audio.length / M) + audio.length / M) := by
          rw [List.take_take, Nat.min_eq_left hle]
      _ = (audio.take (audio.length / M * M)).take
            (k * (audio.length / M) + audio.length / M) := by rw [hpre]
      _ = audio.take (k * (audio.length / M) + audio.length / M) := by
          rw [List.take_take, Nat.min_eq_left hle]

/-- Witness for `downsample_block_mean_spec`: eight samples, `maxPoints = 3`,
factor `2`; the reduction yields three block means. -/
theorem downsample_block_mean_spec_witness :
    (downsample_audio [(0 : ℚ), 2, 4, 6, 8, 10, 12, 14] 1 8 3).1.length = 3 :=
  (downsample_block_mean_spec [(0 : ℚ), 2, 4, 6, 8, 10, 12, 14] 1 8 3
    (by decide) (by decide)).1

/-! ## Time-axis lemmas -/

theorem linspace_length (d : ℚ) (n : Nat) : (linspace d n).length = n := by
  unfold linspace
  split
  · simp_all
  · rw [List.length_map, List.length_range]

theorem linspace_get (d : ℚ) (n : Nat) (hn : n ≠ 1) (i : Nat)
    (hi : i < (linspace d n).length) :
    (linspace d n).get ⟨i, hi⟩ = (i : ℚ) * d / ((n : ℚ) - 1) := by
  have hl : linspace d n
      = (List.range n).map (fun (j : Nat) => (j : ℚ) * d / ((n : ℚ) - 1)) := by
    unfold linspace
    rw [if_neg hn]
  rw [List.get_eq_getElem, List.getElem_of_eq hl, List.getElem_map,
    List.getElem_range]

theorem linspace_isUniformGrid (d : ℚ) (n : Nat) :
    IsUniformGrid (linspace d n) d := by
  by_cases hn : n = 1
  · subst hn
    refine ⟨fun i hi hi2 => ?_, fun h0 => ?_, fun h2 => ?_⟩
    · simp [linspace] at hi
    · simp [linspace]
    · simp [linspace] at h2
  · refine ⟨fun i hi hi2 => ?_, fun h0 => ?_, fun h2 => ?_⟩
    · rw [linspace_get d n hn, linspace_get d n hn, linspace_length]
      push_cast
      ring
    · rw [linspace_get d n hn]
      simp
    · have h2' : 2 ≤ n := by rwa [linspace_length] at h2
      rw [linspace_get d n hn, linspace_length]
      have h1 : (1 : Nat) ≤ n := by omega
      rw [Nat.cast_sub h1, Nat.cast_one]
      have hne : (n : ℚ) - 1 ≠ 0 := by
        have : (2 : ℚ) ≤ (n : ℚ) := by exact_mod_cast h2'
        linarith
      field_simp

/-- **C3** — `downsample_audio` returns a time axis of the same length as the
returned amplitudes; when `L ≤ M` the amplitudes pass through unchanged and
the axis is a uniform grid spanning `[0, duration]`; when `L > M` the axis is
a uniform grid spanning `[0, duration * (reducedLength / frameCount)]`, the
ratio taken against the original frame count. -/
theorem downsample_time_axis_spec (audio : List ℚ) (d : ℚ) (frames M : Nat) :
    (downsample_audio audio d frames M).2.length
        = (downsample_audio audio d frames M).1.length ∧
      (audio.length ≤ M →
        (downsample_audio audio d frames M).1 = audio ∧
          IsUniformGrid (downsample_audio audio d frames M).2 d) ∧
      (M < audio.length →
        IsUniformGrid (downsample_audio audio d frames M).2
          (d * (((downsample_audio audio d frames M).1.length : ℚ)
            / (frames : ℚ)))) := by
  by_cases h : M < audio.length
  · simp only [downsample_audio, if_pos h]
    exact ⟨linspace_length _ _,
      fun hle => absurd h (not_lt.mpr hle),
      fun _ => linspace_isUniformGrid _ _⟩
  · simp only [downsample_audio, if_neg h]
    exact ⟨linspace_length _ _,
      fun _ => ⟨by trivial, linspace_isUniformGrid _ _⟩,
      fun hlt => absurd hlt h⟩

/-- Witness for `downsample_time_axis_spec`: two samples pass through
unchanged under `maxPoints = 3`. -/
theorem downsample_time_axis_spec_witness :
    (downsample_audio [(5 : ℚ), 7] 4 2 3).1 = [5, 7] :=
  ((downsample_time_axis_spec [(5 : ℚ), 7] 4 2 3).2.1 (by decide)).1

/-! ## Normalization lemmas -/

theorem maxAbs_cons (a : ℚ) (t : List ℚ) :
    maxAbs (a :: t) = max |a| (maxAbs t) := rfl

theorem maxAbs_nonneg (xs : List ℚ) : 0 ≤ maxAbs xs := by
  induction xs with
  | nil => exact le_refl 0
  | cons a t ih => exact le_trans ih (le_max_right _ _)

theorem abs_le_maxAbs (xs : List ℚ) (x : ℚ) (hx : x ∈ xs) :
    |x| ≤ maxAbs xs := by
  induction xs with
  | nil => cases hx
  | cons a t ih =>
    rcases List.mem_cons.mp hx with h | h
    · rw [h, maxAbs_cons]
      exact le_max_left _ _
    · rw [maxAbs_cons]
      exact le_trans (ih h) (le_max_right _ _)

theorem maxAbs_eq_zero_or_mem (xs : List ℚ) :
    maxAbs xs = 0 ∨ ∃ x ∈ xs, |x| = maxAbs xs := by
  induction xs with
  | nil => exact Or.inl rfl
  | cons a t ih =>
    rcases le_total |a| (maxAbs t) with h | h
    · rw [maxAbs_cons, max_eq_right h]
      rcases ih with h0 | ⟨x, hx, hxe⟩
      · exact Or.inl h0
      · exact Or.inr ⟨x, List.mem_cons_of_mem _ hx, hxe⟩
    · rw [maxAbs_cons, max_eq_left h]
      exact Or.inr ⟨a, List.mem_cons_self _ _, rfl⟩

/-- **C4** — Normalization: for a nonempty decoded signal, when the maximum
absolute value is nonzero every normalized sample has `|amplitude| ≤ 1` and
some sample reaches magnitude exactly `1`; when the maximum is zero the
division is skipped, the signal is returned untouched and is all-zero (in
this embedding division never raises, mirroring the guarded source). -/
theorem normalize_audio_spec (xs : List ℚ) (_hne : xs ≠ []) :
    (maxAbs xs ≠ 0 →
      (∀ y ∈ normalize_audio xs, |y| ≤ 1) ∧
        ∃ y ∈ normalize_audio xs, |y| = 1) ∧
      (maxAbs xs = 0 →
        normalize_audio xs = xs ∧ ∀ x ∈ xs, x = 0) := by
  constructor
  · intro hmz
    have hpos : 0 < maxAbs xs := lt_of_le_of_ne (maxAbs_nonneg xs) (Ne.symm hmz)
    unfold normalize_audio
    rw [if_pos hpos]
    constructor
    · intro y hy
      rcases List.mem_map.mp hy with ⟨x, hx, rfl⟩
      rw [abs_div, abs_of_pos hpos]
      exact div_le_one_of_le₀ (abs_le_maxAbs xs x hx) (maxAbs_nonneg xs)
    · rcases maxAbs_eq_zero_or_mem xs with h0 | ⟨x, hx, hxe⟩
      · exact absurd h0 hmz
      · refine ⟨x / maxAbs xs, List.mem_map_of_mem _ hx, ?_⟩
        rw [abs_div, abs_of_pos hpos, hxe, div_self hmz]
  · intro hz
    have hid : normalize_audio xs = xs := by
      unfold normalize_audio
      rw [if_neg (by rw [hz]; exact lt_irrefl 0)]
    refine ⟨hid, fun x hx => ?_⟩
    have h1 := abs_le_maxAbs xs x hx
    rw [hz] at h1
    exact abs_eq_zero.mp (le_antisymm h1 (abs_nonneg x))

/-- Witness for `normalize_audio_spec`: the signal `[1/2, -2]` normalizes to
magnitude at most one with some sample at exactly one. -/
theorem normalize_audio_spec_witness :
    (∀ y ∈ normalize_audio [(1 : ℚ)/2, -2], |y| ≤ 1) ∧
      ∃ y ∈ normalize_audio [(1 : ℚ)/2, -2], |y| = 1 :=
  (normalize_audio_spec [(1 : ℚ)/2, -2] (by simp)).1
    (by norm_num [maxAbs, max_def, abs])

/-! ## Downmix lemmas -/

theorem flatten_replicate_drop (r : List ℚ) (c : Nat) (hr : r.length = c) :
    ∀ k n, k ≤ n →
      ((List.replicate n r).flatten).drop (k * c)
        = (List.replicate (n - k) r).flatten := by
  intro k
  induction k with
  | zero =>
    intro n _
    simp
  | succ k ih =>
    intro n hk
    match n, hk with
    | m + 1, _ =>
      have hsm : (k + 1) * c = c + k * c := by ring
      rw [hsm, ← List.drop_drop]
      rw [List.replicate_succ, List.flatten_cons, List.drop_left' hr]
      rw [ih m (by omega)]
      congr 2
      omega

theorem reshapeRows_flatten_replicate (r : List ℚ) (c n : Nat)
    (hr : r.length = c) (hc : 0 < c) :
    reshapeRows c ((List.replicate n r).flatten) = List.replicate n r := by
  have hlen : ((List.replicate n r).flatten).length = n * c := by
    rw [List.length_flatten, List.map_replicate, hr, List.sum_replicate,
      smul_eq_mul]
  unfold reshapeRows
  rw [hlen, Nat.mul_div_cancel n hc]
  rw [List.eq_replicate_iff]
  refine ⟨by rw [List.length_map, List.length_range], fun b hb => ?_⟩
  rcases List.mem_map.mp hb with ⟨k, hk, rfl⟩
  rw [List.mem_range] at hk
  rw [flatten_replicate_drop r c hr k n (by omega)]
  have hnk : n - k = (n - k - 1) + 1 := by omega
  rw [hnk, List.replicate_succ, List.flatten_cons, List.take_left' hr]

theorem downmix_stereoPM (n : Nat) :
    downmix 2 ((List.replicate n [(1 : ℚ), -1]).flatten)
      = List.replicate n 0 := by
  unfold downmix
  rw [if_pos (by omega)]
  rw [reshapeRows_flatten_replicate [(1 : ℚ), -1] 2 n rfl (by omega),
    List.map_replicate]
  have hm : mean [(1 : ℚ), -1] = 0 := by
    norm_num [mean]
  rw [hm]

theorem maxAbs_replicate_zero (n : Nat) :
    maxAbs (List.replicate n (0 : ℚ)) = 0 := by
  induction n with
  | zero => rfl
  | succ n ih => rw [List.replicate_succ, maxAbs_cons, ih, abs_zero, max_self]

/-- **C5** — `process_audio_data` downmixes multi-channel input by the
arithmetic mean of the channel values of each frame (element `k` of the
downmix is the sum of frame `k` divided by the channel count), and a
2-channel stream with channels constantly `+1` and `-1` processes to an
all-zero mono record. -/
theorem downmix_mean_spec :
    (∀ (c : Nat) (xs : List ℚ), 1 < c →
      ∀ k (hk : k < (downmix c xs).length),
        (downmix c xs).get ⟨k, hk⟩
          = ((xs.drop (k * c)).take c).sum / (c : ℚ)) ∧
      ∀ n : Nat,
        process_samples 2 ((List.replicate n [(1 : ℚ), -1]).flatten)
          = List.replicate n 0 := by
  constructor
  · intro c xs hc k hk
    have hd : downmix c xs
        = (List.range (xs.length / c)).map
            (fun k => mean ((xs.drop (k * c)).take c)) := by
      unfold downmix reshapeRows
      rw [if_pos hc, List.map_map]
      rfl
    have hk' : k < xs.length / c := by
      rw [hd, List.length_map, List.length_range] at hk
      exact hk
    have hck : (k + 1) * c ≤ xs.length / c * c :=
      Nat.mul_le_mul_right _ (by omega)
    have hc2 : xs.length / c * c ≤ xs.length := Nat.div_mul_le_self _ _
    have hs : (k + 1) * c = k * c + c := Nat.succ_mul k c
    have hbl : ((xs.drop (k * c)).take c).length = c := by
      rw [List.length_take, List.length_drop]
      exact Nat.min_eq_left (by omega)
    rw [List.get_eq_getElem, List.getElem_of_eq hd, List.getElem_map,
      List.getElem_range]
    unfold mean
    rw [hbl]
  · intro n
    unfold process_samples
    rw [downmix_stereoPM n]
    unfold normalize_audio
    rw [if_neg (by rw [maxAbs_replicate_zero]; exact lt_irrefl 0)]

/-- Witness for `downmix_mean_spec`: two interleaved `±1` stereo frames
process to two zeros, and the first downmix element of `[1, 3]` at two
channels is the frame mean `2`. -/
theorem downmix_mean_spec_witness :
    process_samples 2 ((List.replicate 2 [(1 : ℚ), -1]).flatten)
        = List.replicate 2 0 ∧
      (downmix 2 [(1 : ℚ), 3]).get ⟨0, by decide⟩ = 2 := by
  constructor
  · exact downmix_mean_spec.2 2
  · rw [downmix_mean_spec.1 2 [(1 : ℚ), 3] (by decide) 0 (by decide)]
    norm_num

/-! ## Decoder sample-width dispatch -/

/-- **C6** — The decode dtype dispatch succeeds exactly for sample widths 1
(8-bit unsigned), 2 (16-bit signed) and 4 (32-bit signed); every other width
terminates the run with the unsupported-format error and produces no
output. -/
theorem dtype_for_width_spec (w : Nat) :
    ((∃ d, dtype_for_width w = Except.ok d) ↔ w = 1 ∨ w = 2 ∨ w = 4) ∧
      (¬(w = 1 ∨ w = 2 ∨ w = 4) →
        dtype_for_width w = Except.error "Unsupported sample width") := by
  unfold dtype_for_width
  by_cases h2 : w = 2
  · subst h2
    simp
  · by_cases h4 : w = 4
    · subst h4
      simp
    · by_cases h1 : w = 1
      · subst h1
        simp
      · simp [h1, h2, h4]

/-- Witness for `dtype_for_width_spec`: a 3-byte sample width is rejected
with the unsupported-format error. -/
theorem dtype_for_width_spec_witness :
    dtype_for_width 3 = Except.error "Unsupported sample width" :=
  (dtype_for_width_spec 3).2 (by decide)

/-! ## Cache-failure tolerance of `main` -/

/-- **C7** — Cache failures are never propagated: a corrupt cache entry
behaves exactly like an absent one (the waveform is recomputed), a failing
cache write changes neither the rendered output nor whether decoding ran
(it only skips caching), and in both failure cases the rendered output
equals that of a run without any cache. -/
theorem cache_failure_harmless (decoded : WaveformRecord) (c : CacheRead)
    (putOk : Bool) (M : Nat) :
    main_run decoded CacheRead.corrupt putOk M
        = main_run decoded CacheRead.absent putOk M ∧
      (main_run decoded CacheRead.corrupt putOk M).recomputed = true ∧
      ((main_run decoded c putOk M).rendered
          = (main_run decoded c true M).rendered ∧
        (main_run decoded c putOk M).recomputed
          = (main_run decoded c true M).recomputed) ∧
      (main_run decoded CacheRead.corrupt putOk M).rendered
        = (main_run decoded CacheRead.absent true M).rendered := by
  refine ⟨rfl, rfl, ⟨?_, ?_⟩, rfl⟩ <;> cases c <;> rfl

/-! ## Fingerprint sensitivity -/

theorem char_toNat_injective : Function.Injective Char.toNat := by
  intro a b h
  apply Char.eq_of_val_eq
  apply UInt32.ext
  exact h

/-- **C8 counterexample** — Differing content does not force a different
digest: content `"ab"` with mtime string `"11.5"` and content `"ab1"` with
mtime string `"1.5"` concatenate to the same hash input `"ab11.5"`, so
`file_hash` returns the same digest although the contents differ. -/
theorem file_hash_claim_false :
    file_hash [97, 98] "11.5" = file_hash [97, 98, 49] "1.5" ∧
      ([97, 98] : List Nat) ≠ [97, 98, 49] := by
  constructor
  · have h : file_hash_input [97, 98] "11.5"
        = file_hash_input [97, 98, 49] "1.5" := by decide
    unfold file_hash
    rw [h]
  · decide

/-- **C8 (amended)** — What the fingerprint construction does guarantee: two
file states with identical content but different mtime strings, or with
different content of equal length, always produce different SHA-256 inputs
(hence different digests absent a SHA-256 collision); but distinct
content/mtime pairs can collide on the very input bytes, as the
counterexample shows, so a content change alone does not guarantee a new
fingerprint. -/
theorem file_hash_input_sensitivity (c1 c2 : List Nat) (m1 m2 : String) :
    (c1 = c2 → m1 ≠ m2 → file_hash_input c1 m1 ≠ file_hash_input c2 m2) ∧
      (c1.length = c2.length → c1 ≠ c2 →
        file_hash_input c1 m1 ≠ file_hash_input c2 m2) := by
  constructor
  · rintro rfl hm heq
    unfold file_hash_input at heq
    have h2 := List.append_cancel_left heq
    have h3 := List.map_injective_iff.mpr char_toNat_injective h2
    apply hm
    have h4 : m1.data = m2.data := h3
    cases m1
    cases m2
    exact congrArg String.mk h4
  · intro hlen hne heq
    unfold file_hash_input at heq
    exact hne (List.append_inj heq hlen).1

/-- Witness for `file_hash_input_sensitivity`: equal content `"a"` with
mtime strings `"1.5"` and `"2.5"` gives different hash inputs. -/
theorem file_hash_input_sensitivity_witness :
    file_hash_input [97] "1.5" ≠ file_hash_input [97] "2.5" :=
  (file_hash_input_sensitivity [97] [97] "1.5" "2.5").1 rfl (by decide)

/-! ## Cleanup of the transient transcoded file -/

/-- **C9 counterexample** — Cleanup can remove a file the run did not
create: on a cache-hit run for input `"song.mp3"` no transcode happens, yet
a pre-existing `temp_waveform.wav` is deleted by the `finally` block. -/
theorem main_cleanup_claim_false :
    transcodes "song.mp3" true = false ∧
      (run_with_cleanup "song.mp3" true (Except.ok ())
          ["song.mp3", temp_wav]).2 = ["song.mp3"] := by
  constructor
  · rfl
  · decide

/-- **C9 (amended)** — The `finally` cleanup runs on every exit path (the
body's outcome, success or failure, passes through unchanged) and removes at
most the fixed temporary `wav_path` — possibly a pre-existing file of that
name the run did not create — and never the original input: the input path
always survives, and any removed path equals `wav_path` and differs from the
input path. -/
theorem main_cleanup_spec (inputPath : String) (cacheHit : Bool)
    (body : Except String Unit) (fs : List String)
    (hin : inputPath ∈ fs) :
    (run_with_cleanup inputPath cacheHit body fs).1 = body ∧
      inputPath ∈ (run_with_cleanup inputPath cacheHit body fs).2 ∧
      ∀ p ∈ body_files inputPath cacheHit fs,
        p ∉ (run_with_cleanup inputPath cacheHit body fs).2 →
          p = wav_path_for inputPath cacheHit ∧ p ≠ inputPath := by
  have hin1 : inputPath ∈ body_files inputPath cacheHit fs := by
    unfold body_files
    split
    · split
      · exact hin
      · exact List.mem_append_left _ hin
    · exact hin
  refine ⟨rfl, ?_, ?_⟩
  · show inputPath ∈ cleanup inputPath (wav_path_for inputPath cacheHit)
      (body_files inputPath cacheHit fs)
    unfold cleanup
    split
    next hcond => exact (List.mem_erase_of_ne (Ne.symm hcond.1)).mpr hin1
    next hcond => exact hin1
  · intro p hp hnp
    have hnp' : p ∉ cleanup inputPath (wav_path_for inputPath cacheHit)
        (body_files inputPath cacheHit fs) := hnp
    unfold cleanup at hnp'
    by_cases hcond : wav_path_for inputPath cacheHit ≠ inputPath ∧
        wav_path_for inputPath cacheHit ∈ body_files inputPath cacheHit fs
    · rw [if_pos hcond] at hnp'
      by_cases hpw : p = wav_path_for inputPath cacheHit
      · exact ⟨hpw, fun hpi => hcond.1 (by rw [← hpw, hpi])⟩
      · exact absurd ((List.mem_erase_of_ne hpw).mpr hp) hnp'
    · rw [if_neg hcond] at hnp'
      exact absurd hp hnp'

/-- Witness for `main_cleanup_spec`: a transcoding run on `"a.mp3"` keeps
the input file in existence. -/
theorem main_cleanup_spec_witness :
    "a.mp3" ∈ (run_with_cleanup "a.mp3" false (Except.ok ()) ["a.mp3"]).2 :=
  (main_cleanup_spec "a.mp3" false (Except.ok ()) ["a.mp3"] (by decide)).2.1

/-! ## Gradient division by zero -/

theorem mapM_option_map {α β : Type} (g : α → β) (l : List α) :
    l.mapM (fun a => some (g a)) = some (l.map g) := by
  induction l with
  | nil => rfl
  | cons a t ih =>
    rw [List.mapM_cons, ih]
    rfl

theorem plot_gradient_positions_isSome (L : Nat) (hL : L ≠ 2) :
    plot_gradient_positions L ≠ none := by
  unfold plot_gradient_positions smooth_gradient_positions
  by_cases h0 : (L : Int) - 1 ≤ 0
  · unfold pyRange
    rw [if_pos h0]
    exact fun h => Option.noConfusion h
  · have hne : ((L : Int) - 1) - 1 ≠ 0 := by omega
    simp only [if_neg hne]
    rw [mapM_option_map]
    simp

/-- **C10** — `plot_waveform`'s gradient computation fails exactly on series
of two samples: `N = 1` makes `smooth_gradient_colors` evaluate `0 / 0`
(Python's ZeroDivisionError, modelled as `none`); for 0, 1 or at least 3
samples the division is either never reached (empty range) or has a nonzero
divisor. -/
theorem plot_two_sample_failure (L : Nat) :
    plot_gradient_positions L = none ↔ L = 2 := by
  constructor
  · intro h
    by_contra hL
    exact plot_gradient_positions_isSome L hL h
  · rintro rfl
    decide
